import Mathlib

/-!
Verification of the Burn_Assessment segmentation trainer
(src/models/Segmentation/u_net.py) against its specification.

The development shallowly embeds the three parts of the program the claims
are about:
  1. the dataset adapter `BurnDataset` (directory listing, path resolution,
     image preprocessing, mask scaling);
  2. the shape semantics of the U-Net blocks (`DoubleConv`, `DownConv`,
     `UpConv`, `OutConv`) and of the full `UNet.forward`;
  3. the schedule skeleton of `train_model` (global step counter, the
     validation trigger `global_step % (n_train // (10 * batch_size)) == 0`,
     and gradient value clipping).

Machine reals (numpy / torch floats) are modelled by rationals; pixel values
loaded from image files are rationals constrained by hypotheses to the
integer range [0, 255] where a claim needs it.
-/

/-- Errors a fetch or a training step can raise, mirroring the Python
exception classes that matter to the claims. -/
inductive PyError where
  | fileNotFound
  | indexErr
  | zeroDivision
deriving DecidableEq

/-- String constant for the extension the dataset hard-codes
(`file_name + ".png"` in `__getitem__`). -/
def pngExt : String := ".png"

/-- The stem of a listed filename: `self.data[index].split(".")[0]`,
i.e. the text before the first dot (the whole name when it has no dot). -/
def stem (s : String) : String := String.mk (s.data.takeWhile fun c => c ≠ '.')

/-- A 3-dimensional numpy array (as produced by `np.array` on a decoded
RGB image: axis order height x width x channels). Entries are rationals. -/
structure NpArr3 where
  d0 : Nat
  d1 : Nat
  d2 : Nat
  val : Nat → Nat → Nat → ℚ

/-- A 2-dimensional numpy array (a decoded grayscale mask). -/
structure NpArr2 where
  d0 : Nat
  d1 : Nat
  val : Nat → Nat → ℚ

/-- Maximum of a list of rationals, seeded with 0 (pixel arrays are
non-negative, so the seed never masks the true maximum). -/
def qListMax (l : List ℚ) : ℚ := l.foldr max 0

/-- All in-range entries of a 3-d array, flattened. -/
def NpArr3.cells (a : NpArr3) : List ℚ :=
  (List.range a.d0).flatMap fun i =>
    (List.range a.d1).flatMap fun j =>
      (List.range a.d2).map fun k => a.val i j k

/-- `img_array.max()` of numpy, over the in-range entries. -/
def NpArr3.maxVal (a : NpArr3) : ℚ := qListMax a.cells

/-- `img_array.transpose((2, 0, 1))`: move the channel axis first. -/
def NpArr3.transpose201 (a : NpArr3) : NpArr3 :=
  ⟨a.d2, a.d0, a.d1, fun i j k => a.val j k i⟩

/-- `BurnDataset.preprocess`: transpose to channel-first and divide by 255
when the maximum entry exceeds 1. -/
def preprocess (img : NpArr3) : NpArr3 :=
  let img_array := img.transpose201
  if 1 < img_array.maxVal then
    ⟨img_array.d0, img_array.d1, img_array.d2,
      fun i j k => img_array.val i j k / 255⟩
  else img_array

/-- `np.array(mask) / 255`: the mask is divided by 255 unconditionally. -/
def maskToArr (mask : NpArr2) : NpArr2 :=
  ⟨mask.d0, mask.d1, fun i j => mask.val i j / 255⟩

/-- A directory, modelled as an association list from file names to the
arrays their image files decode to. -/
def lookupFile {α : Type} : List (String × α) → String → Option α
  | [], _ => none
  | (nm, a) :: rest, target => if nm = target then some a else lookupFile rest target

/-- The dataset object: the two directories and `self.data`, the listing of
the inputs directory taken at construction time. -/
structure BurnDataset where
  inputs_dir : List (String × NpArr3)
  masks_dir : List (String × NpArr2)
  data : List String

/-- `BurnDataset.__init__`: stores both directory paths and lists the
inputs directory (`os.listdir(self.inputs_dir)`); the masks directory is
not consulted. -/
def mkBurnDataset (inputs_dir : List (String × NpArr3))
    (masks_dir : List (String × NpArr2)) : BurnDataset :=
  ⟨inputs_dir, masks_dir, inputs_dir.map Prod.fst⟩

/-- `BurnDataset.__len__`. -/
def BurnDataset.len (d : BurnDataset) : Nat := d.data.length

/-- `BurnDataset.__getitem__`: resolve the listed name to its stem, open
`stem + ".png"` in the inputs directory and then in the masks directory
(`Image.open` raises FileNotFoundError on a missing file), preprocess the
image, and scale the mask by 1/255. -/
def BurnDataset.getitem (d : BurnDataset) (index : Nat) :
    Except PyError (NpArr3 × NpArr2) :=
  match d.data.get? index with
  | none => Except.error PyError.indexErr
  | some listed =>
    let file_name := stem listed
    match lookupFile d.inputs_dir (file_name ++ pngExt) with
    | none => Except.error PyError.fileNotFound
    | some image =>
      match lookupFile d.masks_dir (file_name ++ pngExt) with
      | none => Except.error PyError.fileNotFound
      | some mask => Except.ok (preprocess image, maskToArr mask)

-- Basic facts about `qListMax` and `cells`.

theorem le_qListMax {l : List ℚ} {x : ℚ} (hx : x ∈ l) : x ≤ qListMax l := by
  induction l with
  | nil => cases hx
  | cons a t ih =>
    rcases List.mem_cons.1 hx with rfl | hx
    · exact le_max_left _ _
    · exact le_trans (ih hx) (le_max_right _ _)

theorem qListMax_nonneg (l : List ℚ) : 0 ≤ qListMax l := by
  induction l with
  | nil => exact le_refl 0
  | cons a t ih => exact le_trans ih (le_max_right _ _)

theorem qListMax_le {l : List ℚ} {c : ℚ} (hc : 0 ≤ c)
    (h : ∀ x ∈ l, x ≤ c) : qListMax l ≤ c := by
  induction l with
  | nil => exact hc
  | cons a t ih =>
    exact max_le (h a (List.mem_cons_self a t))
      (ih fun x hx => h x (List.mem_cons_of_mem a hx))

theorem mem_cells_iff (a : NpArr3) (x : ℚ) :
    x ∈ a.cells ↔ ∃ i j k, i < a.d0 ∧ j < a.d1 ∧ k < a.d2 ∧ x = a.val i j k := by
  unfold NpArr3.cells
  constructor
  · intro hx
    rcases List.mem_flatMap.1 hx with ⟨i, hi, hx⟩
    rcases List.mem_flatMap.1 hx with ⟨j, hj, hx⟩
    rcases List.mem_map.1 hx with ⟨k, hk, hx⟩
    exact ⟨i, j, k, List.mem_range.1 hi, List.mem_range.1 hj,
      List.mem_range.1 hk, hx.symm⟩
  · rintro ⟨i, j, k, hi, hj, hk, rfl⟩
    exact List.mem_flatMap.2 ⟨i, List.mem_range.2 hi,
      List.mem_flatMap.2 ⟨j, List.mem_range.2 hj,
        List.mem_map.2 ⟨k, List.mem_range.2 hk, rfl⟩⟩⟩

theorem val_le_maxVal (a : NpArr3) {i j k : Nat}
    (hi : i < a.d0) (hj : j < a.d1) (hk : k < a.d2) :
    a.val i j k ≤ a.maxVal :=
  le_qListMax ((mem_cells_iff a _).2 ⟨i, j, k, hi, hj, hk, rfl⟩)

theorem maxVal_le (a : NpArr3) {c : ℚ} (hc : 0 ≤ c)
    (h : ∀ i j k, i < a.d0 → j < a.d1 → k < a.d2 → a.val i j k ≤ c) :
    a.maxVal ≤ c := by
  refine qListMax_le hc fun x hx => ?_
  rcases (mem_cells_iff a x).1 hx with ⟨i, j, k, hi, hj, hk, rfl⟩
  exact h i j k hi hj hk

/-- The maximum taken after the transpose equals the maximum of the loaded
array: the transpose permutes the in-range cells. -/
theorem maxVal_transpose201 (a : NpArr3) : a.transpose201.maxVal = a.maxVal := by
  apply le_antisymm
  · refine maxVal_le _ (qListMax_nonneg _) fun i j k hi hj hk => ?_
    exact val_le_maxVal a hj hk hi
  · refine maxVal_le _ (qListMax_nonneg _) fun i j k hi hj hk => ?_
    exact val_le_maxVal a.transpose201 hk hi hj

-- Evaluation of `getitem` under successful lookups.

theorem getitem_eq_ok (d : BurnDataset) (idx : Nat) (nm : String)
    (img : NpArr3) (mask : NpArr2)
    (hnm : d.data.get? idx = some nm)
    (himg : lookupFile d.inputs_dir (stem nm ++ pngExt) = some img)
    (hmask : lookupFile d.masks_dir (stem nm ++ pngExt) = some mask) :
    d.getitem idx = Except.ok (preprocess img, maskToArr mask) := by
  simp only [BurnDataset.getitem, hnm, himg, hmask]

-- Shape and value lemmas for `preprocess`.

theorem preprocess_d0 (img : NpArr3) : (preprocess img).d0 = img.d2 := by
  simp only [preprocess]
  split <;> rfl

theorem preprocess_d1 (img : NpArr3) : (preprocess img).d1 = img.d0 := by
  simp only [preprocess]
  split <;> rfl

theorem preprocess_d2 (img : NpArr3) : (preprocess img).d2 = img.d1 := by
  simp only [preprocess]
  split <;> rfl

theorem preprocess_val (img : NpArr3) (i j k : Nat) :
    (preprocess img).val i j k =
      if 1 < img.maxVal then img.transpose201.val i j k / 255
      else img.transpose201.val i j k := by
  simp only [preprocess, maxVal_transpose201]
  split <;> rfl

theorem preprocess_val_unit (img : NpArr3)
    (hrange : ∀ i j k, i < img.d0 → j < img.d1 → k < img.d2 →
      0 ≤ img.val i j k ∧ img.val i j k ≤ 255) :
    ∀ i j k, i < img.d2 → j < img.d0 → k < img.d1 →
      0 ≤ (preprocess img).val i j k ∧ (preprocess img).val i j k ≤ 1 := by
  intro i j k hi hj hk
  have hval : img.transpose201.val i j k = img.val j k i := rfl
  have hbase := hrange j k i hj hk hi
  rw [preprocess_val]
  split
  case isTrue hgt =>
    constructor
    · exact div_nonneg (hval ▸ hbase.1) (by norm_num)
    · rw [hval, div_le_one (by norm_num : (0:ℚ) < 255)]
      exact hbase.2
  case isFalse hle =>
    constructor
    · exact hval ▸ hbase.1
    · have hmem : img.transpose201.val i j k ≤ img.transpose201.maxVal :=
        val_le_maxVal img.transpose201 hi hj hk
      have : img.transpose201.maxVal ≤ 1 := by
        rw [maxVal_transpose201]
        exact le_of_not_lt hle
      exact le_trans hmem this

/-- C5: for every sample successfully returned by `getitem`, the image
tensor is the preprocessed input: channel-first shape (3, H, W), all
entries in [0, 1], divided by 255 exactly when the loaded arrays maximum
exceeds 1; and the mask tensor keeps the same (H, W) spatial size as the
image (under the datasets well-formedness assumptions: the input file
decodes to an H x W x 3 array with entries in [0, 255] and the mask file
to an H x W array). -/
theorem c5_getitem_image_shape_range
    (inputs : List (String × NpArr3)) (masks : List (String × NpArr2))
    (idx : Nat) (nm : String) (img : NpArr3) (mask : NpArr2)
    (hnm : (mkBurnDataset inputs masks).data.get? idx = some nm)
    (himg : lookupFile inputs (stem nm ++ pngExt) = some img)
    (hmask : lookupFile masks (stem nm ++ pngExt) = some mask)
    (hch : img.d2 = 3)
    (hrange : ∀ i j k, i < img.d0 → j < img.d1 → k < img.d2 →
      0 ≤ img.val i j k ∧ img.val i j k ≤ 255)
    (hmdim : mask.d0 = img.d0 ∧ mask.d1 = img.d1) :
    (mkBurnDataset inputs masks).getitem idx
        = Except.ok (preprocess img, maskToArr mask) ∧
    (preprocess img).d0 = 3 ∧
    (preprocess img).d1 = img.d0 ∧
    (preprocess img).d2 = img.d1 ∧
    (∀ i j k, i < (preprocess img).d0 → j < (preprocess img).d1 →
        k < (preprocess img).d2 →
      0 ≤ (preprocess img).val i j k ∧ (preprocess img).val i j k ≤ 1) ∧
    (∀ i j k, (preprocess img).val i j k =
      if 1 < img.maxVal then img.transpose201.val i j k / 255
      else img.transpose201.val i j k) ∧
    (maskToArr mask).d0 = img.d0 ∧ (maskToArr mask).d1 = img.d1 := by
  refine ⟨getitem_eq_ok _ idx nm img mask hnm himg hmask,
    (preprocess_d0 img).trans hch, preprocess_d1 img, preprocess_d2 img,
    ?_, preprocess_val img, hmdim.1, hmdim.2⟩
  intro i j k hi hj hk
  rw [preprocess_d0] at hi
  rw [preprocess_d1] at hj
  rw [preprocess_d2] at hk
  exact preprocess_val_unit img hrange i j k hi hj hk

-- Concrete files for the witnesses.

def nmAPng : String := "a.png"

def nmAJpg : String := "a.jpg"

def imgA : NpArr3 := ⟨1, 1, 3, fun _ _ _ => 200⟩

def imgB : NpArr3 := ⟨1, 1, 3, fun _ _ _ => 0⟩

def maskA : NpArr2 := ⟨1, 1, fun _ _ => 255⟩

theorem c5_witness :
    imgA.d2 = 3 ∧
    ((mkBurnDataset [(nmAPng, imgA)] [(nmAPng, maskA)]).getitem 0
        = Except.ok (preprocess imgA, maskToArr maskA) ∧
    (preprocess imgA).d0 = 3 ∧
    (preprocess imgA).d1 = imgA.d0 ∧
    (preprocess imgA).d2 = imgA.d1 ∧
    (∀ i j k, i < (preprocess imgA).d0 → j < (preprocess imgA).d1 →
        k < (preprocess imgA).d2 →
      0 ≤ (preprocess imgA).val i j k ∧ (preprocess imgA).val i j k ≤ 1) ∧
    (∀ i j k, (preprocess imgA).val i j k =
      if 1 < imgA.maxVal then imgA.transpose201.val i j k / 255
      else imgA.transpose201.val i j k) ∧
    (maskToArr maskA).d0 = imgA.d0 ∧ (maskToArr maskA).d1 = imgA.d1) :=
  ⟨rfl, c5_getitem_image_shape_range [(nmAPng, imgA)] [(nmAPng, maskA)]
    0 nmAPng imgA maskA rfl rfl rfl rfl
    (fun _ _ _ _ _ _ => ⟨by norm_num [imgA], by norm_num [imgA]⟩) ⟨rfl, rfl⟩⟩

/-- C6: the returned mask equals the loaded mask pixel-wise divided by 255,
and under loaded values in [0, 255] all resulting values lie in [0, 1]. -/
theorem c6_mask_divided_by_255
    (inputs : List (String × NpArr3)) (masks : List (String × NpArr2))
    (idx : Nat) (nm : String) (img : NpArr3) (mask : NpArr2)
    (hnm : (mkBurnDataset inputs masks).data.get? idx = some nm)
    (himg : lookupFile inputs (stem nm ++ pngExt) = some img)
    (hmask : lookupFile masks (stem nm ++ pngExt) = some mask)
    (hrange : ∀ i j, i < mask.d0 → j < mask.d1 →
      0 ≤ mask.val i j ∧ mask.val i j ≤ 255) :
    (mkBurnDataset inputs masks).getitem idx
        = Except.ok (preprocess img, maskToArr mask) ∧
    (∀ i j, (maskToArr mask).val i j = mask.val i j / 255) ∧
    (∀ i j, i < mask.d0 → j < mask.d1 →
      0 ≤ (maskToArr mask).val i j ∧ (maskToArr mask).val i j ≤ 1) := by
  refine ⟨getitem_eq_ok _ idx nm img mask hnm himg hmask,
    fun i j => rfl, fun i j hi hj => ?_⟩
  have hbase := hrange i j hi hj
  constructor
  · exact div_nonneg hbase.1 (by norm_num)
  · have : (maskToArr mask).val i j = mask.val i j / 255 := rfl
    rw [this, div_le_one (by norm_num : (0:ℚ) < 255)]
    exact hbase.2

theorem c6_witness :
    (0:ℚ) ≤ maskA.val 0 0 ∧ maskA.val 0 0 ≤ 255 ∧
    ((mkBurnDataset [(nmAPng, imgA)] [(nmAPng, maskA)]).getitem 0
        = Except.ok (preprocess imgA, maskToArr maskA) ∧
    (∀ i j, (maskToArr maskA).val i j = maskA.val i j / 255) ∧
    (∀ i j, i < maskA.d0 → j < maskA.d1 →
      0 ≤ (maskToArr maskA).val i j ∧ (maskToArr maskA).val i j ≤ 1)) :=
  ⟨by norm_num [maskA], by norm_num [maskA],
    c6_mask_divided_by_255 [(nmAPng, imgA)] [(nmAPng, maskA)]
      0 nmAPng imgA maskA rfl rfl rfl
      (fun _ _ _ _ => ⟨by norm_num [maskA], by norm_num [maskA]⟩)⟩

/-- C7: construction only lists the inputs directory (its result is
independent of the masks directory, so no missing-mask error can be raised
there), and an index whose resolved mask file is absent fails at fetch time
with a FileNotFoundError. -/
theorem c7_lazy_missing_mask
    (inputs : List (String × NpArr3)) (masks masks2 : List (String × NpArr2))
    (idx : Nat) (nm : String)
    (hnm : (mkBurnDataset inputs masks).data.get? idx = some nm)
    (hmiss : lookupFile masks (stem nm ++ pngExt) = none) :
    (mkBurnDataset inputs masks).data = (mkBurnDataset inputs masks2).data ∧
    (mkBurnDataset inputs masks).getitem idx
        = Except.error PyError.fileNotFound := by
  refine ⟨rfl, ?_⟩
  have hnm2 : (List.map Prod.fst inputs).get? idx = some nm := hnm
  cases himg : lookupFile inputs (stem nm ++ pngExt) with
  | none => simp only [BurnDataset.getitem, mkBurnDataset, hnm2, himg]
  | some img => simp only [BurnDataset.getitem, mkBurnDataset, hnm2, himg, hmiss]

theorem c7_witness :
    (mkBurnDataset [(nmAPng, imgA)] []).data.get? 0 = some nmAPng ∧
    lookupFile ([] : List (String × NpArr2)) (stem nmAPng ++ pngExt) = none ∧
    ((mkBurnDataset [(nmAPng, imgA)] []).data
        = (mkBurnDataset [(nmAPng, imgA)] [(nmAPng, maskA)]).data ∧
    (mkBurnDataset [(nmAPng, imgA)] []).getitem 0
        = Except.error PyError.fileNotFound) :=
  ⟨rfl, rfl, c7_lazy_missing_mask [(nmAPng, imgA)] [] [(nmAPng, maskA)]
    0 nmAPng rfl rfl⟩

/-- C8: the length of a dataset equals the number of files in the inputs
directory, whatever the masks directory holds. -/
theorem c8_len_eq_inputs (inputs : List (String × NpArr3))
    (masks : List (String × NpArr2)) :
    (mkBurnDataset inputs masks).len = inputs.length := by
  simp [mkBurnDataset, BurnDataset.len]

/-- The inputs directory of the C10 counterexample holds both `a.jpg` and a
sibling `a.png` the stem resolution silently falls back to. -/
def dsMixed : BurnDataset :=
  mkBurnDataset [(nmAJpg, imgA), (nmAPng, imgB)] [(nmAPng, maskA)]

/-- C10 counterexample: `a.jpg` is listed (counted by `len`), its extension
is not the hard-coded `.png` (its resolved path differs from its own name),
the file itself exists, and yet `getitem 0` does not raise a missing-file
error: it silently loads the sibling `a.png` instead. -/
theorem c10_counterexample :
    dsMixed.data.get? 0 = some nmAJpg ∧
    stem nmAJpg ++ pngExt ≠ nmAJpg ∧
    lookupFile dsMixed.inputs_dir nmAJpg = some imgA ∧
    dsMixed.len = 2 ∧
    dsMixed.getitem 0 ≠ Except.error PyError.fileNotFound := by
  refine ⟨rfl, by decide, rfl, rfl, ?_⟩
  have h : dsMixed.getitem 0 = Except.ok (preprocess imgB, maskToArr maskA) := rfl
  rw [h]
  intro hcontra
  exact Except.noConfusion hcontra

/-- C10 (amended): `getitem` resolves both paths from the stem before the
first dot plus the fixed `.png` extension; a listed file is always counted
by `len`, and whenever no file named stem + `.png` exists in the inputs
directory (in particular for a listed non-png file with no png sibling of
the same stem), `getitem` on its index raises a missing-file error even
though the listed input file itself exists. -/
theorem c10_amended_resolution_error
    (inputs : List (String × NpArr3)) (masks : List (String × NpArr2))
    (idx : Nat) (nm : String)
    (hnm : (mkBurnDataset inputs masks).data.get? idx = some nm)
    (hnores : lookupFile inputs (stem nm ++ pngExt) = none) :
    (mkBurnDataset inputs masks).len = inputs.length ∧
    (mkBurnDataset inputs masks).getitem idx
        = Except.error PyError.fileNotFound := by
  refine ⟨by simp [mkBurnDataset, BurnDataset.len], ?_⟩
  have hnm2 : (List.map Prod.fst inputs).get? idx = some nm := hnm
  simp only [BurnDataset.getitem, mkBurnDataset, hnm2, hnores]

theorem c10_witness :
    (mkBurnDataset [(nmAJpg, imgA)] []).data.get? 0 = some nmAJpg ∧
    lookupFile [(nmAJpg, imgA)] (stem nmAJpg ++ pngExt) = none ∧
    ((mkBurnDataset [(nmAJpg, imgA)] []).len = 1 ∧
    (mkBurnDataset [(nmAJpg, imgA)] []).getitem 0
        = Except.error PyError.fileNotFound) :=
  ⟨rfl, rfl, c10_amended_resolution_error [(nmAJpg, imgA)] [] 0 nmAJpg rfl rfl⟩

-- Shape semantics of the U-Net layers.

/-- The shape (N, C, H, W) of a 4-d torch tensor. -/
structure Shape where
  n : Nat
  c : Nat
  h : Nat
  w : Nat
deriving DecidableEq

/-- Shape of `nn.Conv2d(cin, cout, kernel_size=k, stride=s, padding=p)`:
requires the channel count to match and the padded input not smaller than
the kernel; each spatial size maps to `(size + 2p - k) / s + 1`. -/
def conv2dShape (cin cout k s p : Nat) : Shape → Option Shape
  | ⟨n, c, hh, ww⟩ =>
    if c = cin ∧ k ≤ hh + 2 * p ∧ k ≤ ww + 2 * p then
      some ⟨n, cout, (hh + 2 * p - k) / s + 1, (ww + 2 * p - k) / s + 1⟩
    else none

/-- Shape of `nn.BatchNorm2d(c)`: identity, channel count must match. -/
def batchNorm2dShape (ch : Nat) : Shape → Option Shape
  | ⟨n, c, hh, ww⟩ => if c = ch then some ⟨n, c, hh, ww⟩ else none

/-- Shape of `nn.ReLU`: identity. -/
def reluShape (x : Shape) : Option Shape := some x

/-- Shape of `nn.MaxPool2d(kernel_size=k, stride=s)`. -/
def maxPool2dShape (k s : Nat) : Shape → Option Shape
  | ⟨n, c, hh, ww⟩ =>
    if k ≤ hh ∧ k ≤ ww then
      some ⟨n, c, (hh - k) / s + 1, (ww - k) / s + 1⟩
    else none

/-- Shape of `nn.Upsample(scale_factor=2, mode="bilinear")`: doubles both
spatial sizes. -/
def upsample2Shape (x : Shape) : Option Shape :=
  some ⟨x.n, x.c, 2 * x.h, 2 * x.w⟩

/-- Shape of `nn.ConvTranspose2d(cin, cout, kernel_size=k, stride=s)`:
each spatial size maps to `(size - 1) * s + k`. -/
def convTranspose2dShape (cin cout k s : Nat) : Shape → Option Shape
  | ⟨n, c, hh, ww⟩ =>
    if c = cin ∧ 1 ≤ hh ∧ 1 ≤ ww then
      some ⟨n, cout, (hh - 1) * s + k, (ww - 1) * s + k⟩
    else none

/-- The four padding arguments `UpConv.forward` builds:
`[dif_w // 2, dif_w - dif_w // 2, dif_h // 2, dif_h - dif_h // 2]`
with `dif_h = x2.size(2) - x1.size(2)` and `dif_w = x2.size(3) - x1.size(3)`
(Python `//` is floor division, hence `Int.fdiv`). -/
def upConvPadArgs (x1 x2 : Shape) : Int × Int × Int × Int :=
  let dif_h : Int := (x2.h : Int) - (x1.h : Int)
  let dif_w : Int := (x2.w : Int) - (x1.w : Int)
  (Int.fdiv dif_w 2, dif_w - Int.fdiv dif_w 2,
    Int.fdiv dif_h 2, dif_h - Int.fdiv dif_h 2)

/-- `torchvision.transforms.functional.pad` reads a 4-element padding
sequence as `[left, top, right, bottom]`: these are the (top, bottom)
amounts applied to the height axis. -/
def heightPads (args : Int × Int × Int × Int) : Int × Int :=
  (args.2.1, args.2.2.2)

/-- The (left, right) amounts `torchvision.transforms.functional.pad`
applies to the width axis from a `[left, top, right, bottom]` sequence. -/
def widthPads (args : Int × Int × Int × Int) : Int × Int :=
  (args.1, args.2.2.1)

/-- Shape of `torchvision.transforms.functional.pad(x, args)` on a 4-d
tensor: height grows by top + bottom, width by left + right (a negative
total that would make a size negative is an error). -/
def tvPadShape (args : Int × Int × Int × Int) (x : Shape) : Option Shape :=
  let tb := heightPads args
  let lr := widthPads args
  let hOut : Int := (x.h : Int) + tb.1 + tb.2
  let wOut : Int := (x.w : Int) + lr.1 + lr.2
  if 0 ≤ hOut ∧ 0 ≤ wOut then some ⟨x.n, x.c, hOut.toNat, wOut.toNat⟩
  else none

/-- The alignment step of `UpConv.forward` (lines 129-131): compute the
height and width differences against the skip map and pad the upsampled
map through `torchvision.transforms.functional.pad`. -/
def upConvAlign (x1 x2 : Shape) : Option Shape :=
  tvPadShape (upConvPadArgs x1 x2) x1

/-- Shape of `torch.cat([x2, x1], dim=1)`: channel counts add, all other
dimensions must agree. -/
def catDim1Shape (x2 x1 : Shape) : Option Shape :=
  if x2.n = x1.n ∧ x2.h = x1.h ∧ x2.w = x1.w then
    some ⟨x2.n, x2.c + x1.c, x2.h, x2.w⟩
  else none

/-- Shape of `DoubleConv(cin, cout)`: two (3x3 conv, stride 1, padding 1 →
batch norm → ReLU) stages. -/
def doubleConvShape (cin cout : Nat) (x : Shape) : Option Shape :=
  (conv2dShape cin cout 3 1 1 x).bind fun a =>
  (batchNorm2dShape cout a).bind fun b =>
  (reluShape b).bind fun c =>
  (conv2dShape cout cout 3 1 1 c).bind fun d =>
  (batchNorm2dShape cout d).bind reluShape

/-- Shape of `DownConv(cin, cout)`: a 2x2 max pool with stride 2 followed
by the same double (conv → batch norm → ReLU) stack as `DoubleConv`. -/
def downConvShape (cin cout : Nat) (x : Shape) : Option Shape :=
  (maxPool2dShape 2 2 x).bind fun a => doubleConvShape cin cout a

/-- Shape of the upsampling member of `UpConv`: bilinear upsample when
`bilinear`, else `ConvTranspose2d(cin, cin // 2, kernel_size=2, stride=2)`. -/
def upConvUpShape (cin : Nat) (bilinear : Bool) (x : Shape) : Option Shape :=
  if bilinear then upsample2Shape x else convTranspose2dShape cin (cin / 2) 2 2 x

/-- Shape of the convolutional tail of `UpConv`: in bilinear mode the first
conv maps `cin` to `mid_channels = cin // 2` and the second to `cout`; in
transposed mode both convs target `cout`. -/
def upConvConvShape (cin cout : Nat) (bilinear : Bool) (x : Shape) : Option Shape :=
  if bilinear then
    (conv2dShape cin (cin / 2) 3 1 1 x).bind fun a =>
    (batchNorm2dShape (cin / 2) a).bind fun b =>
    (reluShape b).bind fun c =>
    (conv2dShape (cin / 2) cout 3 1 1 c).bind fun d =>
    (batchNorm2dShape cout d).bind reluShape
  else
    (conv2dShape cin cout 3 1 1 x).bind fun a =>
    (batchNorm2dShape cout a).bind fun b =>
    (reluShape b).bind fun c =>
    (conv2dShape cout cout 3 1 1 c).bind fun d =>
    (batchNorm2dShape cout d).bind reluShape

/-- Shape of `UpConv.forward(x1, x2)`: upsample `x1`, align it to the skip
map `x2`, concatenate along the channel axis, run the conv tail. -/
def upConvForwardShape (cin cout : Nat) (bilinear : Bool) (x1 x2 : Shape) :
    Option Shape :=
  (upConvUpShape cin bilinear x1).bind fun x1u =>
  (upConvAlign x1u x2).bind fun x1p =>
  (catDim1Shape x2 x1p).bind fun x =>
  upConvConvShape cin cout bilinear x

/-- Shape of `OutConv(cin, cout)`: a single 1x1 convolution. -/
def outConvShape (cin cout : Nat) (x : Shape) : Option Shape :=
  conv2dShape cin cout 1 1 0 x

/-- Shape of `UNet.forward`: stem, four encoder stages, four decoder
stages consuming the symmetric skip connections, head; channel widths as
in `UNet.__init__` with `factor = 2 if bilinear else 1`. -/
def unetForwardShape (n_channels n_classes : Nat) (bilinear : Bool)
    (x : Shape) : Option Shape :=
  let factor := if bilinear then 2 else 1
  (doubleConvShape n_channels 64 x).bind fun x1 =>
  (downConvShape 64 128 x1).bind fun x2 =>
  (downConvShape 128 256 x2).bind fun x3 =>
  (downConvShape 256 512 x3).bind fun x4 =>
  (downConvShape 512 (1024 / factor) x4).bind fun x5 =>
  (upConvForwardShape 1024 (512 / factor) bilinear x5 x4).bind fun y1 =>
  (upConvForwardShape 512 (256 / factor) bilinear y1 x3).bind fun y2 =>
  (upConvForwardShape 256 (128 / factor) bilinear y2 x2).bind fun y3 =>
  (upConvForwardShape 128 64 bilinear y3 x1).bind fun y4 =>
  outConvShape 64 n_classes y4

-- Per-layer shape lemmas.

theorem reluShape_eq (x : Shape) : reluShape x = some x := rfl

theorem conv3_same (cin cout n hh ww : Nat) (h1 : 1 ≤ hh) (w1 : 1 ≤ ww) :
    conv2dShape cin cout 3 1 1 ⟨n, cin, hh, ww⟩ = some ⟨n, cout, hh, ww⟩ := by
  simp only [conv2dShape]
  split
  next hcond =>
    simp only [Option.some.injEq, Shape.mk.injEq, true_and, and_true]
    omega
  next hcond => exact absurd ⟨trivial, by omega, by omega⟩ hcond

theorem conv1_same (cin cout n hh ww : Nat) (h1 : 1 ≤ hh) (w1 : 1 ≤ ww) :
    conv2dShape cin cout 1 1 0 ⟨n, cin, hh, ww⟩ = some ⟨n, cout, hh, ww⟩ := by
  simp only [conv2dShape]
  split
  next hcond =>
    simp only [Option.some.injEq, Shape.mk.injEq, true_and, and_true]
    omega
  next hcond => exact absurd ⟨trivial, by omega, by omega⟩ hcond

theorem batchNorm_same (ch n hh ww : Nat) :
    batchNorm2dShape ch ⟨n, ch, hh, ww⟩ = some ⟨n, ch, hh, ww⟩ := by
  simp [batchNorm2dShape]

theorem maxPool22 (c n h w : Nat) (h1 : 1 ≤ h) (w1 : 1 ≤ w) :
    maxPool2dShape 2 2 ⟨n, c, 2 * h, 2 * w⟩ = some ⟨n, c, h, w⟩ := by
  simp only [maxPool2dShape]
  split
  next hcond =>
    simp only [Option.some.injEq, Shape.mk.injEq, true_and, and_true]
    omega
  next hcond => exact absurd ⟨by omega, by omega⟩ hcond

theorem doubleConv_same (cin cout n hh ww : Nat) (h1 : 1 ≤ hh) (w1 : 1 ≤ ww) :
    doubleConvShape cin cout ⟨n, cin, hh, ww⟩ = some ⟨n, cout, hh, ww⟩ := by
  simp only [doubleConvShape, conv3_same cin cout n hh ww h1 w1, Option.some_bind',
    batchNorm_same, reluShape_eq, conv3_same cout cout n hh ww h1 w1]

theorem downConv_shape (cin cout n hs ws h w : Nat)
    (e1 : hs = 2 * h) (e2 : ws = 2 * w) (h1 : 1 ≤ h) (w1 : 1 ≤ w) :
    downConvShape cin cout ⟨n, cin, hs, ws⟩ = some ⟨n, cout, h, w⟩ := by
  subst e1; subst e2
  simp only [downConvShape, maxPool22 cin n h w h1 w1, Option.some_bind',
    doubleConv_same cin cout n h w h1 w1]

theorem upConvAlign_self (n1 c1 n2 c2 hh ww : Nat) :
    upConvAlign ⟨n1, c1, hh, ww⟩ ⟨n2, c2, hh, ww⟩ = some ⟨n1, c1, hh, ww⟩ := by
  simp only [upConvAlign, upConvPadArgs, tvPadShape, heightPads, widthPads,
    sub_self, show Int.fdiv 0 2 = 0 from by decide, sub_zero, add_zero]
  split
  next hcond =>
    simp only [Option.some.injEq, Shape.mk.injEq, true_and, and_true]
    omega
  next hcond => exact absurd ⟨by omega, by omega⟩ hcond

theorem upConv_bilinear (cin cout c1 c2 n h w hs ws : Nat)
    (hcat : c2 + c1 = cin) (e1 : hs = 2 * h) (e2 : ws = 2 * w)
    (h1 : 1 ≤ h) (w1 : 1 ≤ w) :
    upConvForwardShape cin cout true ⟨n, c1, h, w⟩ ⟨n, c2, hs, ws⟩
      = some ⟨n, cout, hs, ws⟩ := by
  subst e1; subst e2
  have hup : upConvUpShape cin true ⟨n, c1, h, w⟩ = some ⟨n, c1, 2 * h, 2 * w⟩ := rfl
  have hcatEq : catDim1Shape ⟨n, c2, 2 * h, 2 * w⟩ ⟨n, c1, 2 * h, 2 * w⟩
      = some ⟨n, cin, 2 * h, 2 * w⟩ := by
    simp only [catDim1Shape]
    rw [if_pos (by simp), hcat]
  have h2 : 1 ≤ 2 * h := by omega
  have w2 : 1 ≤ 2 * w := by omega
  have hconv : upConvConvShape cin cout true ⟨n, cin, 2 * h, 2 * w⟩
      = some ⟨n, cout, 2 * h, 2 * w⟩ := by
    simp only [upConvConvShape]
    rw [if_pos (by simp)]
    simp only [conv3_same cin (cin / 2) n (2 * h) (2 * w) h2 w2, Option.some_bind',
      batchNorm_same, reluShape_eq, conv3_same (cin / 2) cout n (2 * h) (2 * w) h2 w2]
  simp only [upConvForwardShape, hup, Option.some_bind', upConvAlign_self,
    hcatEq, hconv]

theorem upConv_transposed (cin cout c2 n h w hs ws : Nat)
    (hcat : c2 + cin / 2 = cin) (e1 : hs = 2 * h) (e2 : ws = 2 * w)
    (h1 : 1 ≤ h) (w1 : 1 ≤ w) :
    upConvForwardShape cin cout false ⟨n, cin, h, w⟩ ⟨n, c2, hs, ws⟩
      = some ⟨n, cout, hs, ws⟩ := by
  subst e1; subst e2
  have hup : upConvUpShape cin false ⟨n, cin, h, w⟩
      = some ⟨n, cin / 2, 2 * h, 2 * w⟩ := by
    simp only [upConvUpShape]
    rw [if_neg (by simp)]
    simp only [convTranspose2dShape]
    split
    next hcond =>
      simp only [Option.some.injEq, Shape.mk.injEq, true_and, and_true]
      omega
    next hcond => exact absurd ⟨trivial, h1, w1⟩ hcond
  have hcatEq : catDim1Shape ⟨n, c2, 2 * h, 2 * w⟩ ⟨n, cin / 2, 2 * h, 2 * w⟩
      = some ⟨n, cin, 2 * h, 2 * w⟩ := by
    simp only [catDim1Shape]
    rw [if_pos (by simp), hcat]
  have h2 : 1 ≤ 2 * h := by omega
  have w2 : 1 ≤ 2 * w := by omega
  have hconv : upConvConvShape cin cout false ⟨n, cin, 2 * h, 2 * w⟩
      = some ⟨n, cout, 2 * h, 2 * w⟩ := by
    simp only [upConvConvShape]
    rw [if_neg (by simp)]
    simp only [conv3_same cin cout n (2 * h) (2 * w) h2 w2, Option.some_bind',
      batchNorm_same, reluShape_eq, conv3_same cout cout n (2 * h) (2 * w) h2 w2]
  simp only [upConvForwardShape, hup, Option.some_bind', upConvAlign_self,
    hcatEq, hconv]

-- The network unfolded at each of the two upsampling modes.

theorem unetForwardShape_true_eq (nc ncl : Nat) (x : Shape) :
    unetForwardShape nc ncl true x =
      (doubleConvShape nc 64 x).bind fun x1 =>
      (downConvShape 64 128 x1).bind fun x2 =>
      (downConvShape 128 256 x2).bind fun x3 =>
      (downConvShape 256 512 x3).bind fun x4 =>
      (downConvShape 512 512 x4).bind fun x5 =>
      (upConvForwardShape 1024 256 true x5 x4).bind fun y1 =>
      (upConvForwardShape 512 128 true y1 x3).bind fun y2 =>
      (upConvForwardShape 256 64 true y2 x2).bind fun y3 =>
      (upConvForwardShape 128 64 true y3 x1).bind fun y4 =>
      outConvShape 64 ncl y4 := rfl

theorem unetForwardShape_false_eq (nc ncl : Nat) (x : Shape) :
    unetForwardShape nc ncl false x =
      (doubleConvShape nc 64 x).bind fun x1 =>
      (downConvShape 64 128 x1).bind fun x2 =>
      (downConvShape 128 256 x2).bind fun x3 =>
      (downConvShape 256 512 x3).bind fun x4 =>
      (downConvShape 512 1024 x4).bind fun x5 =>
      (upConvForwardShape 1024 512 false x5 x4).bind fun y1 =>
      (upConvForwardShape 512 256 false y1 x3).bind fun y2 =>
      (upConvForwardShape 256 128 false y2 x2).bind fun y3 =>
      (upConvForwardShape 128 64 false y3 x1).bind fun y4 =>
      outConvShape 64 ncl y4 := rfl

/-- C1: for every batch size N, class count and input of shape (N, 3, H, W)
with H and W positive multiples of 16, `UNet.forward` succeeds and returns
logits of shape (N, n_classes, H, W) — the spatial size is preserved
end-to-end, in both upsampling modes. -/
theorem c1_unet_shape_roundtrip (N ncls hh ww : Nat) (bilinear : Bool)
    (h16 : hh % 16 = 0) (w16 : ww % 16 = 0) (hpos : 0 < hh) (wpos : 0 < ww) :
    unetForwardShape 3 ncls bilinear ⟨N, 3, hh, ww⟩ = some ⟨N, ncls, hh, ww⟩ := by
  obtain ⟨a, rfl⟩ : ∃ a, hh = 16 * a := ⟨hh / 16, by omega⟩
  obtain ⟨b, rfl⟩ : ∃ b, ww = 16 * b := ⟨ww / 16, by omega⟩
  have ha : 1 ≤ a := by omega
  have hb : 1 ≤ b := by omega
  cases bilinear with
  | true =>
    rw [unetForwardShape_true_eq]
    simp only [doubleConv_same 3 64 N (16 * a) (16 * b) (by omega) (by omega),
      Option.some_bind',
      downConv_shape 64 128 N (16 * a) (16 * b) (8 * a) (8 * b) (by ring) (by ring)
        (by omega) (by omega),
      downConv_shape 128 256 N (8 * a) (8 * b) (4 * a) (4 * b) (by ring) (by ring)
        (by omega) (by omega),
      downConv_shape 256 512 N (4 * a) (4 * b) (2 * a) (2 * b) (by ring) (by ring)
        (by omega) (by omega),
      downConv_shape 512 512 N (2 * a) (2 * b) a b (by ring) (by ring) ha hb,
      upConv_bilinear 1024 256 512 512 N a b (2 * a) (2 * b) (by norm_num)
        rfl rfl ha hb,
      upConv_bilinear 512 128 256 256 N (2 * a) (2 * b) (4 * a) (4 * b)
        (by norm_num) (by ring) (by ring) (by omega) (by omega),
      upConv_bilinear 256 64 128 128 N (4 * a) (4 * b) (8 * a) (8 * b)
        (by norm_num) (by ring) (by ring) (by omega) (by omega),
      upConv_bilinear 128 64 64 64 N (8 * a) (8 * b) (16 * a) (16 * b)
        (by norm_num) (by ring) (by ring) (by omega) (by omega),
      outConvShape, conv1_same 64 ncls N (16 * a) (16 * b) (by omega) (by omega)]
  | false =>
    rw [unetForwardShape_false_eq]
    simp only [doubleConv_same 3 64 N (16 * a) (16 * b) (by omega) (by omega),
      Option.some_bind',
      downConv_shape 64 128 N (16 * a) (16 * b) (8 * a) (8 * b) (by ring) (by ring)
        (by omega) (by omega),
      downConv_shape 128 256 N (8 * a) (8 * b) (4 * a) (4 * b) (by ring) (by ring)
        (by omega) (by omega),
      downConv_shape 256 512 N (4 * a) (4 * b) (2 * a) (2 * b) (by ring) (by ring)
        (by omega) (by omega),
      downConv_shape 512 1024 N (2 * a) (2 * b) a b (by ring) (by ring) ha hb,
      upConv_transposed 1024 512 512 N a b (2 * a) (2 * b) (by norm_num)
        rfl rfl ha hb,
      upConv_transposed 512 256 256 N (2 * a) (2 * b) (4 * a) (4 * b)
        (by norm_num) (by ring) (by ring) (by omega) (by omega),
      upConv_transposed 256 128 128 N (4 * a) (4 * b) (8 * a) (8 * b)
        (by norm_num) (by ring) (by ring) (by omega) (by omega),
      upConv_transposed 128 64 64 N (8 * a) (8 * b) (16 * a) (16 * b)
        (by norm_num) (by ring) (by ring) (by omega) (by omega),
      outConvShape, conv1_same 64 ncls N (16 * a) (16 * b) (by omega) (by omega)]

theorem c1_witness :
    16 % 16 = 0 ∧ 0 < 16 ∧
    unetForwardShape 3 2 true ⟨1, 3, 16, 16⟩ = some ⟨1, 2, 16, 16⟩ :=
  ⟨by decide, by decide,
    c1_unet_shape_roundtrip 1 2 16 16 true (by decide) (by decide)
      (by decide) (by decide)⟩

/-- C2: evaluation of the alignment step of `UpConv.forward` at the failing
input. The claim says a smaller upsampled map is padded floor-leading /
ceil-trailing on the mismatching axis; but the four computed amounts are
passed to torchvision pad, which reads them as [left, top, right, bottom].
For a skip map (1, 64, 4, 4) and an upsampled map (1, 64, 4, 3) — width one
smaller — the code pads the height top by 1 instead of the width right, the
result is (1, 64, 5, 3) instead of the claimed aligned (1, 64, 4, 4), and a
whole decoder block on such sizes fails at the concatenation. Only the
height-one-smaller case of the claim does hold (0 on top, 1 on bottom,
aligned output), as the last three conjuncts record. -/
theorem c2_pad_wrong_sides :
    heightPads (upConvPadArgs ⟨1, 64, 4, 3⟩ ⟨1, 64, 4, 4⟩) = (1, 0) ∧
    widthPads (upConvPadArgs ⟨1, 64, 4, 3⟩ ⟨1, 64, 4, 4⟩) = (0, 0) ∧
    upConvAlign ⟨1, 64, 4, 3⟩ ⟨1, 64, 4, 4⟩ = some ⟨1, 64, 5, 3⟩ ∧
    upConvForwardShape 128 64 true ⟨1, 64, 2, 1⟩ ⟨1, 64, 4, 3⟩ = none ∧
    heightPads (upConvPadArgs ⟨1, 64, 3, 4⟩ ⟨1, 64, 4, 4⟩) = (0, 1) ∧
    widthPads (upConvPadArgs ⟨1, 64, 3, 4⟩ ⟨1, 64, 4, 4⟩) = (0, 0) ∧
    upConvAlign ⟨1, 64, 3, 4⟩ ⟨1, 64, 4, 4⟩ = some ⟨1, 64, 4, 4⟩ := by decide

-- The training loop schedule.

/-- The validation trigger of `train_model` (line 237):
`global_step % (n_train // (10 * batch_size)) == 0`. Python raises
ZeroDivisionError when `10 * batch_size` is zero (inner floor division) or
when the divisor `n_train // (10 * batch_size)` is zero (the modulo). -/
def valCheck (n_train batch_size global_step : Nat) : Except PyError Bool :=
  if 10 * batch_size = 0 then Except.error PyError.zeroDivision
  else if n_train / (10 * batch_size) = 0 then Except.error PyError.zeroDivision
  else Except.ok (global_step % (n_train / (10 * batch_size)) == 0)

/-- The inner batch loop of `train_model`: for each remaining batch the
global step is incremented and `valCheck` then decides whether a validation
round runs. Returns the final global step together with the ordered list of
global steps at which a validation round was triggered. -/
def batchLoop (n_train batch_size : Nat) :
    Nat → Nat → Except PyError (Nat × List Nat)
  | 0, global_step => Except.ok (global_step, [])
  | b + 1, global_step =>
    let gs := global_step + 1
    match valCheck n_train batch_size gs with
    | Except.error e => Except.error e
    | Except.ok flag =>
      match batchLoop n_train batch_size b gs with
      | Except.error e => Except.error e
      | Except.ok (gsEnd, rest) =>
        Except.ok (gsEnd, if flag then gs :: rest else rest)

/-- The epoch loop of `train_model`: the given number of epochs, each
iterating over the same number of training batches; the global step
persists across epochs. -/
def epochLoop (n_train batch_size nBatches : Nat) :
    Nat → Nat → Except PyError (Nat × List Nat)
  | 0, global_step => Except.ok (global_step, [])
  | e + 1, global_step =>
    match batchLoop n_train batch_size nBatches global_step with
    | Except.error err => Except.error err
    | Except.ok (gs1, l1) =>
      match epochLoop n_train batch_size nBatches e gs1 with
      | Except.error err => Except.error err
      | Except.ok (gs2, l2) => Except.ok (gs2, l1 ++ l2)

/-- The validation schedule of `train_model`: the global steps at which a
validation round runs over a whole run, with `global_step` starting at 0. -/
def train_model (epochs nBatches n_train batch_size : Nat) :
    Except PyError (List Nat) :=
  Except.map Prod.snd (epochLoop n_train batch_size nBatches epochs 0)

/-- `nn.utils.clip_grad_value_(parameters, clip_value)` (line 231): every
gradient entry is clamped into [-clip_value, clip_value]. -/
def clip_grad_value_ (clip_value : ℚ) (grads : List ℚ) : List ℚ :=
  grads.map fun g => min (max g (-clip_value)) clip_value

theorem valCheck_eq {n_train batch_size : Nat}
    (hd : 0 < n_train / (10 * batch_size)) (gs : Nat) :
    valCheck n_train batch_size gs
      = Except.ok (gs % (n_train / (10 * batch_size)) == 0) := by
  have h10 : ¬(10 * batch_size = 0) := by
    intro h0
    rw [h0, Nat.div_zero] at hd
    exact absurd hd (by omega)
  have hdne : ¬(n_train / (10 * batch_size) = 0) := by omega
  unfold valCheck
  rw [if_neg h10, if_neg hdne]

theorem batchLoop_spec {n_train batch_size : Nat}
    (hd : 0 < n_train / (10 * batch_size)) :
    ∀ b gs, ∃ l, batchLoop n_train batch_size b gs = Except.ok (gs + b, l) ∧
      ∀ s, s ∈ l ↔
        gs < s ∧ s ≤ gs + b ∧ s % (n_train / (10 * batch_size)) = 0 := by
  intro b
  induction b with
  | zero =>
    intro gs
    refine ⟨[], by simp [batchLoop], fun s => ?_⟩
    simp only [List.not_mem_nil, false_iff]
    rintro ⟨h1, h2, -⟩
    omega
  | succ b ih =>
    intro gs
    obtain ⟨l, hl, hmem⟩ := ih (gs + 1)
    refine ⟨if (gs + 1) % (n_train / (10 * batch_size)) == 0
        then (gs + 1) :: l else l, ?_, ?_⟩
    · simp only [batchLoop, valCheck_eq hd, hl]
      rw [show gs + 1 + b = gs + (b + 1) from by omega]
    · intro s
      by_cases h0 : (gs + 1) % (n_train / (10 * batch_size)) = 0
      · rw [if_pos (by simp [h0])]
        simp only [List.mem_cons, hmem s]
        constructor
        · rintro (rfl | ⟨h1, h2, h3⟩)
          · exact ⟨by omega, by omega, h0⟩
          · exact ⟨by omega, by omega, h3⟩
        · rintro ⟨h1, h2, h3⟩
          by_cases he : s = gs + 1
          · exact Or.inl he
          · exact Or.inr ⟨by omega, by omega, h3⟩
      · rw [if_neg (by simp [h0])]
        rw [hmem s]
        constructor
        · rintro ⟨h1, h2, h3⟩
          exact ⟨by omega, by omega, h3⟩
        · rintro ⟨h1, h2, h3⟩
          have hne : s ≠ gs + 1 := fun he => h0 (he ▸ h3)
          exact ⟨by omega, by omega, h3⟩

theorem epochLoop_spec {n_train batch_size nBatches : Nat}
    (hd : 0 < n_train / (10 * batch_size)) :
    ∀ e gs, ∃ l,
      epochLoop n_train batch_size nBatches e gs
        = Except.ok (gs + e * nBatches, l) ∧
      ∀ s, s ∈ l ↔
        gs < s ∧ s ≤ gs + e * nBatches ∧
          s % (n_train / (10 * batch_size)) = 0 := by
  intro e
  induction e with
  | zero =>
    intro gs
    refine ⟨[], by simp [epochLoop], fun s => ?_⟩
    simp only [List.not_mem_nil, false_iff, Nat.zero_mul, Nat.add_zero]
    rintro ⟨h1, h2, -⟩
    omega
  | succ e ih =>
    intro gs
    obtain ⟨l1, hb, hbm⟩ := batchLoop_spec hd nBatches gs
    obtain ⟨l2, hl2, hl2m⟩ := ih (gs + nBatches)
    obtain ⟨m, hm⟩ : ∃ m, m = e * nBatches := ⟨_, rfl⟩
    refine ⟨l1 ++ l2, ?_, ?_⟩
    · simp only [epochLoop, hb, hl2]
      rw [show gs + nBatches + e * nBatches = gs + (e + 1) * nBatches from by ring]
    · intro s
      simp only [List.mem_append, hbm s, hl2m s]
      rw [show (e + 1) * nBatches = m + nBatches from by rw [hm]; ring,
        ← hm] at *
      constructor
      · rintro (⟨h1, h2, h3⟩ | ⟨h1, h2, h3⟩)
        · exact ⟨by omega, by omega, h3⟩
        · exact ⟨by omega, by omega, h3⟩
      · rintro ⟨h1, h2, h3⟩
        by_cases hs : s ≤ gs + nBatches
        · exact Or.inl ⟨by omega, by omega, h3⟩
        · exact Or.inr ⟨by omega, by omega, h3⟩

/-- C3: whenever the divisor `n_train // (10 * batch_size)` is positive,
the whole training run succeeds and a validation round is triggered exactly
at the global steps in (0, epochs * nBatches] that are multiples of that
divisor — never at any other step, never skipped at such a step. -/
theorem c3_validation_cadence (epochs nBatches n_train batch_size : Nat)
    (hd : 0 < n_train / (10 * batch_size)) :
    ∃ l, train_model epochs nBatches n_train batch_size = Except.ok l ∧
      ∀ s, s ∈ l ↔ 0 < s ∧ s ≤ epochs * nBatches ∧
        (n_train / (10 * batch_size)) ∣ s := by
  obtain ⟨l, he, hm⟩ := @epochLoop_spec n_train batch_size nBatches hd epochs 0
  refine ⟨l, ?_, fun s => ?_⟩
  · simp only [train_model, he, Except.map]
  · rw [hm s]
    constructor
    · rintro ⟨h1, h2, h3⟩
      exact ⟨by omega, by omega, Nat.dvd_of_mod_eq_zero h3⟩
    · rintro ⟨h1, h2, h3⟩
      exact ⟨by omega, by omega, Nat.mod_eq_zero_of_dvd h3⟩

theorem c3_witness :
    0 < 20 / (10 * 1) ∧
    (∃ l, train_model 1 5 20 1 = Except.ok l ∧
      ∀ s, s ∈ l ↔ 0 < s ∧ s ≤ 1 * 5 ∧ (20 / (10 * 1)) ∣ s) :=
  ⟨by decide, c3_validation_cadence 1 5 20 1 (by decide)⟩

/-- C9: when `n_train < 10 * batch_size` the divisor
`n_train // (10 * batch_size)` is zero, and any run with at least one epoch
and one training batch aborts on the first batch with a division-by-zero
error: `train_model` is total only under `n_train >= 10 * batch_size`. -/
theorem c9_divisor_zero_aborts (epochs nBatches n_train batch_size : Nat)
    (hlt : n_train < 10 * batch_size) (he : 0 < epochs) (hb : 0 < nBatches) :
    n_train / (10 * batch_size) = 0 ∧
    train_model epochs nBatches n_train batch_size
      = Except.error PyError.zeroDivision := by
  have hd0 : n_train / (10 * batch_size) = 0 := Nat.div_eq_of_lt hlt
  refine ⟨hd0, ?_⟩
  obtain ⟨e, rfl⟩ : ∃ e, epochs = e + 1 := ⟨epochs - 1, by omega⟩
  obtain ⟨b, rfl⟩ : ∃ b, nBatches = b + 1 := ⟨nBatches - 1, by omega⟩
  have h10 : ¬(10 * batch_size = 0) := by omega
  have hval : valCheck n_train batch_size (0 + 1)
      = Except.error PyError.zeroDivision := by
    unfold valCheck
    rw [if_neg h10, if_pos hd0]
  simp only [train_model, epochLoop, batchLoop, hval, Except.map]

theorem c9_witness :
    3 < 10 * 1 ∧ 0 < 1 ∧
    (3 / (10 * 1) = 0 ∧
      train_model 1 1 3 1 = Except.error PyError.zeroDivision) :=
  ⟨by decide, by decide,
    c9_divisor_zero_aborts 1 1 3 1 (by decide) (by decide) (by decide)⟩

/-- C4: after the gradient clipping step of a training batch (clip value
0.1) and before the optimizer step, no gradient entry has absolute value
exceeding 0.1, whatever the backward pass produced. -/
theorem c4_gradients_clipped (grads : List ℚ) (g : ℚ)
    (hg : g ∈ clip_grad_value_ (1 / 10) grads) : |g| ≤ 1 / 10 := by
  rcases List.mem_map.1 hg with ⟨g0, hg0, rfl⟩
  rw [abs_le]
  constructor
  · exact le_min (le_max_right g0 (-(1 / 10))) (by norm_num)
  · exact min_le_right _ _

theorem c4_witness :
    (0 : ℚ) ∈ clip_grad_value_ (1 / 10) [0] ∧ |(0 : ℚ)| ≤ 1 / 10 := by
  have hmem : (0 : ℚ) ∈ clip_grad_value_ (1 / 10) [0] := by
    simp only [clip_grad_value_, List.map_cons, List.map_nil]
    rw [max_eq_left (by norm_num), min_eq_left (by norm_num)]
    exact List.mem_singleton_self 0
  exact ⟨hmem, c4_gradients_clipped [0] 0 hmem⟩
